import Mathlib

/-!
Verification development for the repository-sync pipeline (src/api/repository.js)
and the Repository persistence model (src/models — the Repository definition).

The pipeline is an `async.auto` task graph with five named tasks:
`repo` (FetchRepo), `issues` (FetchIssues), `records` (PersistRecords),
`webhooks` (RegisterWebhook), `train` (TrainModel).  We embed the graph, the
task bodies and the scheduling discipline of `async.auto` (a task body runs
only once every declared dependency has produced its result; the first error
stops the run and no further task is launched) as a sequential executor over
explicit task states.  External collaborators (the GitHub client, the issue
fetcher, the persistence engine, the webhook registrar, the classifier
trainer) are injected through an environment of outcomes, exactly the data
the bodies branch on.
-/

/-- The five tasks of the sync pipeline, as named in the `async.auto` call. -/
inductive TName
  | repo
  | issues
  | records
  | webhooks
  | train
deriving DecidableEq, Repr

/-- Task states of the executor.  In the sequential embedding `Ready` and
`Running` collapse into the execution step itself, so only the four
observable states remain. -/
inductive TaskState
  | Pending
  | Succeeded
  | Failed
  | Skipped
deriving DecidableEq, Repr

/-- Assignment of a state to every task (total map as a structure, so that
equality stays decidable and snapshots can be compared concretely). -/
structure StMap where
  repo : TaskState
  issues : TaskState
  records : TaskState
  webhooks : TaskState
  train : TaskState
deriving DecidableEq, Repr

def StMap.get (m : StMap) : TName → TaskState
  | .repo => m.repo
  | .issues => m.issues
  | .records => m.records
  | .webhooks => m.webhooks
  | .train => m.train

def StMap.set (m : StMap) : TName → TaskState → StMap
  | .repo, s => { m with repo := s }
  | .issues, s => { m with issues := s }
  | .records, s => { m with records := s }
  | .webhooks, s => { m with webhooks := s }
  | .train, s => { m with train := s }

/-- Dependency lists of the pipeline, read off the `async.auto` argument:
`records: ['repo', 'issues', ...]`, `webhooks: ['repo', ...]`,
`train: ['repo', 'records', ...]`. -/
def deps : TName → List TName
  | .repo => []
  | .issues => []
  | .records => [.repo, .issues]
  | .webhooks => [.repo]
  | .train => [.repo, .records]

/-- A progress event as emitted by the pipeline's `progress` helper:
`{task, percent, message?}` (the message is present only on the webhook
completion event, where the source writes `message: err && err.message`). -/
structure Ev where
  task : TName
  percent : ℚ
  message : Option String
deriving DecidableEq, Repr

/-- The `owner` object of a raw GitHub repository payload; `transformFields`
reads `owner.login` off it. -/
structure RawOwner where
  login : String
deriving DecidableEq, Repr

/-- A raw GitHub repository payload.  The real payload has many more fields;
`watchers` stands for the fields dropped by the `_.pick` in
`Repository.transformFields`. -/
structure RawRepo where
  id : Nat
  owner : RawOwner
  name : String
  description : String
  watchers : Nat
deriving DecidableEq, Repr

/-- The normalized repository record produced by `Repository.transformFields`
(and later extended with the caller's token by the `repo` task). -/
structure RepoRec where
  id : Nat
  owner : String
  name : String
  description : String
  token : Option String
deriving DecidableEq, Repr

/-- `Repository.transformFields` from the Repository model: pick only
`id`, `owner`, `name`, `description` and simplify `owner` to `owner.login`.
The token field is not part of the pick; it is attached later. -/
def Repository.transformFields (raw : RawRepo) : RepoRec :=
  { id := raw.id
    owner := raw.owner.login
    name := raw.name
    description := raw.description
    token := none }

/-- A raw issue payload from the paginated issue fetcher. -/
structure RawIssue where
  data : Nat
deriving DecidableEq, Repr

/-- A local issue record; `repository_id` is assigned by PersistRecords. -/
structure IssueRec where
  data : Nat
  repository_id : Option Nat
deriving DecidableEq, Repr

/-- Modelled from the spec: `Issue.transformFields` lives in the Issue model
file, which is not part of the given sources; the spec says FetchIssues
"normalizes each raw issue into the local record shape".  We model the
normalization as carrying the payload over with no repository assigned yet. -/
def Issue.transformFields (raw : RawIssue) : IssueRec :=
  { data := raw.data, repository_id := none }

/-- The classifier trainer's summary.  The field names follow the
`_.pick(resp, ['score','wrong','total','percentage','newly_labeled_issues'])`
in the Repository model's training method. -/
structure TrainSummary where
  score : ℚ
  wrong : Nat
  total : Nat
  percentage : ℚ
  newly_labeled_issues : Nat
deriving DecidableEq, Repr

/-- One invocation of the classifier trainer `train(owner, name, issues,
ignoreLabels)`. -/
structure TrainCall where
  owner : String
  name : String
  issues : List IssueRec
  ignoreLabels : List String
deriving DecidableEq, Repr

/-- The persistence state: Repository rows and Issue rows. -/
structure DB where
  repos : List RepoRec
  issues : List IssueRec
deriving DecidableEq, Repr

/-- Whether a stored Repository row matches the unique `(owner, name)` key of
`r` (the Repository model declares a unique index on these two fields). -/
def repoKey (r : RepoRec) (x : RepoRec) : Bool :=
  x.owner == r.owner && x.name == r.name

/-- The row-level effect of `Repository.upsert` on the stored Repository
rows: update the row matching the unique `(owner, name)` key if one exists,
insert otherwise. -/
def upsertRows (r : RepoRec) (l : List RepoRec) : List RepoRec :=
  if l.any (repoKey r) then
    l.map fun x => if repoKey r x then r else x
  else
    l ++ [r]

/-- `Repository.upsert`: insert-or-update keyed by the unique
`(owner, name)` pair. -/
def DB.upsertRepo (db : DB) (r : RepoRec) : DB :=
  { db with repos := upsertRows r db.repos }

/-- `Issue.destroy({where: {repository_id: repoId}})`: delete every issue of
the repository. -/
def DB.destroyIssues (db : DB) (repoId : Nat) : DB :=
  { db with issues := db.issues.filter fun i => i.repository_id != some repoId }

/-- `Issue.bulkCreate(issues)`: append the given rows. -/
def DB.bulkCreate (db : DB) (is : List IssueRec) : DB :=
  { db with issues := db.issues ++ is }

/-- The `_.each(issues, issue => issue.repository_id = repoId)` step:
associate every issue with the repository. -/
def setRepoIds (repoId : Nat) (is : List IssueRec) : List IssueRec :=
  is.map fun i => { i with repository_id := some repoId }

/-- The persistence effect of the `records` task body: upsert the repository,
delete all of its issues, then bulk-insert the fetched issues with the
repository identity attached. -/
def DB.persistStep (db : DB) (r : RepoRec) (is : List IssueRec) : DB :=
  ((db.upsertRepo r).destroyIssues r.id).bulkCreate (setRepoIds r.id is)

/-- Number of stored Repository rows matching the `(owner, name)` key. -/
def DB.repoCount (db : DB) (r : RepoRec) : Nat :=
  (db.repos.filter (repoKey r)).length

/-- A value stored in the `async.auto` result store.  `unitV` is the value of
a task whose body calls `cb()` with no result (JavaScript `undefined`), as the
webhook and train bodies do.  `summaryV` is never produced by the code; it
exists so that the statement "the stored train value is the trainer's
summary" can be written down and compared against what the code stores. -/
inductive TVal
  | repoV (r : RepoRec)
  | issuesV (l : List IssueRec)
  | recordsV (l : List IssueRec)
  | unitV
  | summaryV (s : TrainSummary)
deriving DecidableEq, Repr

/-- Per-run result store: task name to produced value. -/
abbrev Store := List (TName × TVal)

def Store.find (s : Store) (t : TName) : Option TVal :=
  (s.find? fun p => p.1 == t).map Prod.snd

/-- The environment of collaborator outcomes a run branches on: the GitHub
repository fetch, the caller's token, the paginated issue fetch (with its
page count, and how many page callbacks fired before a failing fetch failed),
the webhook registrar outcome, the classifier trainer outcome, an injected
persistence failure, and the initial persistence state. -/
structure Env where
  repoResult : Except String RawRepo
  token : Option String
  issuesResult : Except String (List RawIssue)
  pages : Nat
  pagesDone : Nat
  webhookErr : Option String
  trainResult : Except String TrainSummary
  persistErr : Option String
  db : DB

/-- The percent values forwarded by the paginated issue fetcher's
page-completion callback: after page `i+1` of `p` it reports `(i+1)/p`.
Modelled from the spec: `getIssues` lives in src/issues, which is not part of
the given sources; the spec says FetchIssues forwards the fetcher's
"incremental page-completion callback directly into progress events". -/
def pagePercents (p : Nat) : List ℚ :=
  (List.range p).map fun (i : Nat) => ((i : ℚ) + 1) / (p : ℚ)

/-- The progress events produced by the page-completion callbacks. -/
def pageEvs (p : Nat) : List Ev :=
  (pagePercents p).map fun q => Ev.mk .issues q none

/-- What a task body returns: its emitted events, its callback outcome, the
persistence state after it, in-place mutations of values already in the
result store (JavaScript aliasing: the records body sets `repository_id` on
the very issue objects stored under `issues`), and the classifier-trainer
invocations it performed. -/
structure BodyOut where
  events : List Ev
  result : Except String TVal
  db : DB
  patch : Store
  trainCalls : List TrainCall

/-- The `repo` task body: emit percent 0, call `socket.github.repos.get`; on
error fail; on success normalize with `Repository.transformFields`, attach
the caller's token, emit percent 1. -/
def repoBody (env : Env) (_s : Store) (db : DB) : BodyOut :=
  match env.repoResult with
  | .error e => ⟨[Ev.mk .repo 0 none], .error e, db, [], []⟩
  | .ok raw =>
    let r0 := Repository.transformFields raw
    let r := { r0 with token := env.token }
    ⟨[Ev.mk .repo 0 none, Ev.mk .repo 1 none], .ok (.repoV r), db, [], []⟩

/-- The `issues` task body: forward the fetcher's page-completion callbacks
as progress events (the fetcher reports percent 0 on start — modelled from
the spec, see `pagePercents`); on success transform every raw issue and emit
percent 1; on error fail after the pages that completed. -/
def issuesBody (env : Env) (_s : Store) (db : DB) : BodyOut :=
  match env.issuesResult with
  | .error e =>
    ⟨Ev.mk .issues 0 none :: (pageEvs env.pages).take env.pagesDone, .error e, db, [], []⟩
  | .ok raws =>
    let issues := raws.map Issue.transformFields
    ⟨Ev.mk .issues 0 none :: (pageEvs env.pages ++ [Ev.mk .issues 1 none]),
      .ok (.issuesV issues), db, [], []⟩

/-- The `records` task body: emit 0, upsert the repository, emit 0.5, delete
its issues, set `repository_id` on the fetched issues (mutating the shared
issue objects in place), emit 0.6, bulk-insert, emit 1 and produce the
inserted records.  An injected persistence error makes the chain fail. -/
def recordsBody (env : Env) (s : Store) (db : DB) : BodyOut :=
  let e0 := Ev.mk .records 0 none
  match Store.find s .repo, Store.find s .issues with
  | some (.repoV r), some (.issuesV is) =>
    match env.persistErr with
    | some e => ⟨[e0], .error e, db, [], []⟩
    | none =>
      let inserted := setRepoIds r.id is
      ⟨[e0, Ev.mk .records (1/2) none, Ev.mk .records (3/5) none, Ev.mk .records 1 none],
        .ok (.recordsV inserted), db.persistStep r is,
        [(.issues, .issuesV inserted)], []⟩
  | _, _ => ⟨[e0], .error "missing dependency result", db, [], []⟩

/-- The `webhooks` task body: emit 0, call `createHook`, then emit percent 1
whose message is `err && err.message`, and call `cb()` with no error — the
body always reports success to the executor, whatever the registrar did. -/
def webhooksBody (env : Env) (_s : Store) (db : DB) : BodyOut :=
  ⟨[Ev.mk .webhooks 0 none, Ev.mk .webhooks 1 env.webhookErr], .ok .unitV, db, [], []⟩

/-- The `train` task body: emit 0; with at most one fetched issue emit 1 and
complete with no trainer call; otherwise call
`train(owner, name, issues, [])` and on success emit 1.  In both completing
branches the body calls `cb()` with no value: the trainer's response is
discarded. -/
def trainBody (env : Env) (s : Store) (db : DB) : BodyOut :=
  let e0 := Ev.mk .train 0 none
  match Store.find s .repo, Store.find s .issues with
  | some (.repoV r), some (.issuesV issues) =>
    if issues.length ≤ 1 then
      ⟨[e0, Ev.mk .train 1 none], .ok .unitV, db, [], []⟩
    else
      let call : TrainCall := ⟨r.owner, r.name, issues, []⟩
      match env.trainResult with
      | .ok _resp => ⟨[e0, Ev.mk .train 1 none], .ok .unitV, db, [], [call]⟩
      | .error e => ⟨[e0], .error e, db, [], [call]⟩
  | _, _ => ⟨[e0], .error "missing dependency result", db, [], []⟩

def bodyOf : TName → Env → Store → DB → BodyOut
  | .repo => repoBody
  | .issues => issuesBody
  | .records => recordsBody
  | .webhooks => webhooksBody
  | .train => trainBody

/-- Apply in-place mutations of stored values (JavaScript aliasing). -/
def applyPatch (patch : Store) (s : Store) : Store :=
  patch.foldl (fun acc p => acc.map fun q => if q.1 == p.1 then p else q) s

/-- Executor state: the result store, every task's state, the emitted events,
the persistence state, the trainer invocations, the invocation log (each body
invocation together with the task states at the moment the body started), and
the first error. -/
structure ExecSt where
  store : Store
  states : StMap
  events : List Ev
  db : DB
  trainCalls : List TrainCall
  invocations : List (TName × StMap)
  firstErr : Option String
deriving DecidableEq, Repr

/-- All declared dependencies of `t` have succeeded. -/
def depsOK (m : StMap) (t : TName) : Bool :=
  (deps t).all fun d => m.get d == .Succeeded

/-- The order in which the sequential embedding scans for a launchable task.
`async.auto` launches `webhooks` as soon as `repo` completes — before
`records`, which additionally awaits `issues` — so the serialization lists it
right after `repo`. -/
def scanOrder : List TName := [.repo, .webhooks, .issues, .records, .train]

def findReady (m : StMap) : Option TName :=
  scanOrder.find? fun t => m.get t == .Pending && depsOK m t

/-- Run one task body and record its effects.  On success the result is
written once to the store; on error `async.auto` records the first error,
which stops the run. -/
def execTask (env : Env) (t : TName) (s : ExecSt) : ExecSt :=
  let out := bodyOf t env s.store s.db
  let store1 := applyPatch out.patch s.store
  match out.result with
  | .ok v =>
    { store := store1 ++ [(t, v)]
      states := s.states.set t .Succeeded
      events := s.events ++ out.events
      db := out.db
      trainCalls := s.trainCalls ++ out.trainCalls
      invocations := s.invocations ++ [(t, s.states)]
      firstErr := s.firstErr }
  | .error e =>
    { store := store1
      states := s.states.set t .Failed
      events := s.events ++ out.events
      db := out.db
      trainCalls := s.trainCalls ++ out.trainCalls
      invocations := s.invocations ++ [(t, s.states)]
      firstErr := some e }

/-- The `async.auto` driver: while no error has occurred, launch the first
task whose dependencies are all satisfied; stop when none is left. -/
def runLoop (env : Env) : Nat → ExecSt → ExecSt
  | 0, s => s
  | n + 1, s =>
    if s.firstErr.isSome then s
    else
      match findReady s.states with
      | none => s
      | some t => runLoop env n (execTask env t s)

def initSt (db : DB) : ExecSt :=
  ⟨[], ⟨.Pending, .Pending, .Pending, .Pending, .Pending⟩, [], db, [], [], none⟩

/-- One full run of the sync pipeline's task graph. -/
def syncAuto (env : Env) : ExecSt :=
  runLoop env 5 (initSt env.db)

/-- The percent values emitted for one task within one run, in order. -/
def percentsOf (t : TName) (s : ExecSt) : List ℚ :=
  (s.events.filter fun e => e.task == t).map Ev.percent

/-- A non-decreasing sequence of percents. -/
def Nondecreasing (l : List ℚ) : Prop :=
  l.Pairwise (· ≤ ·)

/-- The result of `parse-github-url` as far as the handlers read it:
`owner`, `name` (checked for presence) and `repo` (the joined slug used for
the room name). -/
structure ParsedRepo where
  owner : Option String
  name : Option String
  repo : String
deriving DecidableEq, Repr

/-- Split a character list at every slash. -/
def splitOnSlash : List Char → List (List Char)
  | [] => [[]]
  | c :: cs =>
    if c = '/' then [] :: splitOnSlash cs
    else
      match splitOnSlash cs with
      | [] => [[c]]
      | h :: t => (c :: h) :: t

/-- Modelled from the spec: the URL parser (the npm `parse-github-url`
package, an external collaborator) — "pure parsing, no I/O"; on the spec's
concrete input it must yield owner "acme" and name "widgets". -/
def parseGitHubUrl (url : String) : Option ParsedRepo :=
  let base := "https://github.com/".data
  let cs := url.data
  if cs.take base.length = base then
    match splitOnSlash (cs.drop base.length) with
    | [o, n] =>
      if o = [] ∨ n = [] then none
      else some ⟨some ⟨o⟩, some ⟨n⟩, ⟨o ++ '/' :: n⟩⟩
    | _ => none
  else none

/-- The error outcomes of the `REPOSITORY_SYNC` handler: the missing-session
error, the invalid-URL error, and a runtime error message forwarded from the
pipeline (`cb(err && err.message, results)`). -/
inductive SyncError
  | missingCredential
  | invalidRepositoryURL
  | runtime (msg : String)
deriving DecidableEq, Repr

/-- What the `REPOSITORY_SYNC` handler delivers to its callback, together
with the progress events emitted and the task bodies invoked on the way. -/
structure SyncResponse where
  error : Option SyncError
  results : Option Store
  events : List Ev
  invoked : List TName
deriving DecidableEq, Repr

/-- The `REPOSITORY_SYNC` handler: reject a caller without an authenticated
GitHub session with the missing-credential error; then parse the URL and
reject a malformed one (`!(repo && repo.name)`) with the invalid-URL error;
otherwise run the pipeline and deliver `(err && err.message, results)`. -/
def repositorySync (hasSession : Bool) (url : String) (env : Env) : SyncResponse :=
  if !hasSession then ⟨some .missingCredential, none, [], []⟩
  else
    match parseGitHubUrl url with
    | some r =>
      if r.name.isSome then
        let st := syncAuto env
        ⟨st.firstErr.map .runtime, some st.store, st.events, st.invocations.map Prod.fst⟩
      else ⟨some .invalidRepositoryURL, none, [], []⟩
    | none => ⟨some .invalidRepositoryURL, none, [], []⟩

/-- A URL the handler considers malformed: the parser returns nothing, or a
result with no `name`. -/
def malformedURL (url : String) : Bool :=
  match parseGitHubUrl url with
  | none => true
  | some r => r.name.isNone

/-- `Repository.findById`. -/
def Repository.findById (db : DB) (repoId : Nat) : Option RepoRec :=
  db.repos.find? fun r => r.id == repoId

/-- The Repository instance method `train()`: load all issues with this
repository's `id`, call the classifier trainer with
`(owner, name, issues, [])`, and only log its response or its error — the
promise chain ends in a catch that prints the error, and the method itself
returns `undefined` either way. -/
def Repository.instanceTrain (db : DB) (_trainerResult : Except String TrainSummary)
    (self : RepoRec) : List TrainCall × Except String Unit :=
  let issues := db.issues.filter fun i => i.repository_id == some self.id
  ([⟨self.owner, self.name, issues, []⟩], .ok ())

/-- The Repository class method `train(repoId)` (the administrative
TrainRepository entry point): find the repository by id and call its instance
training method.  When no repository matches, `repo.train()` throws on the
null receiver and the rejection propagates to the caller. -/
def Repository.classTrain (db : DB) (trainerResult : Except String TrainSummary)
    (repoId : Nat) : List TrainCall × Except String Unit :=
  match Repository.findById db repoId with
  | some repo => Repository.instanceTrain db trainerResult repo
  | none => ([], .error "TypeError: cannot read property train of null")

/-- Concrete sample data used by witnesses and counterexamples. -/
def rawRepo0 : RawRepo := ⟨77, ⟨"acme"⟩, "widgets", "Widget tracker", 5⟩

def sum0 : TrainSummary := ⟨1, 1, 12, 1, 3⟩

def db0 : DB := ⟨[], []⟩

/-- The spec's concrete scenario: a fetcher returning 3 issues, everything
succeeding. -/
def envBase : Env :=
  ⟨.ok rawRepo0, some "tok", .ok [⟨10⟩, ⟨11⟩, ⟨12⟩], 3, 3, none, .ok sum0, none, db0⟩

/-- A run whose repository fetch fails. -/
def envRepoFail : Env :=
  ⟨.error "boom", some "tok", .ok [⟨10⟩, ⟨11⟩, ⟨12⟩], 3, 3, none, .ok sum0, none, db0⟩

/-- The repository record as the `repo` task produces it: normalized and
with the caller's token attached. -/
def fetchedRepo (raw : RawRepo) (tok : Option String) : RepoRec :=
  { Repository.transformFields raw with token := tok }

/-- The issue records as the `issues` task produces them. -/
def fetchedIssues (raws : List RawIssue) : List IssueRec :=
  raws.map Issue.transformFields

/-!
List-level helper lemmas about the issue-page progress events and
non-decreasing percent sequences.
-/

lemma percents_issueEvs (l : List ℚ) :
    ((l.map fun q => Ev.mk .issues q none).filter fun e => e.task == .issues).map Ev.percent
      = l := by
  induction l with
  | nil => rfl
  | cons x xs ih => simpa using ih

lemma filter_issueEvs_ne (t : TName) (h : ¬t = .issues) (l : List ℚ) :
    ((l.map fun q => Ev.mk .issues q none).filter fun e => e.task == t) = [] := by
  induction l with
  | nil => rfl
  | cons x xs ih =>
    have hb : (TName.issues == t) = false := by
      cases t <;> simp_all
    simpa [List.filter_cons, hb] using ih

lemma pagePercents_nonneg (p : Nat) : ∀ x ∈ pagePercents p, 0 ≤ x := by
  intro x hx
  simp only [pagePercents, List.mem_map, List.mem_range] at hx
  obtain ⟨i, _, rfl⟩ := hx
  apply div_nonneg
  · have : (0 : ℚ) ≤ (i : ℚ) := by exact_mod_cast Nat.zero_le i
    linarith
  · exact_mod_cast Nat.zero_le p

lemma pagePercents_le_one (p : Nat) : ∀ x ∈ pagePercents p, x ≤ 1 := by
  intro x hx
  simp only [pagePercents, List.mem_map, List.mem_range] at hx
  obtain ⟨i, hi, rfl⟩ := hx
  have hp : (0 : ℚ) < p := by exact_mod_cast Nat.zero_lt_of_lt hi
  rw [div_le_one hp]
  exact_mod_cast Nat.succ_le_of_lt hi

lemma pagePercents_pairwise (p : Nat) : (pagePercents p).Pairwise (· ≤ ·) := by
  rcases Nat.eq_zero_or_pos p with h | h
  · subst h; simp [pagePercents]
  · have hp : (0 : ℚ) < p := by exact_mod_cast h
    unfold pagePercents
    rw [List.pairwise_map]
    refine (List.pairwise_lt_range p).imp ?_
    intro a b hab
    have h1 : ((a : ℚ) + 1) ≤ ((b : ℚ) + 1) := by
      have : (a : ℚ) ≤ (b : ℚ) := by exact_mod_cast hab.le
      linarith
    exact (div_le_div_iff_of_pos_right hp).mpr h1

lemma nondecreasing_zero_cons (l : List ℚ) (hl : l.Pairwise (· ≤ ·))
    (h0 : ∀ x ∈ l, 0 ≤ x) : Nondecreasing (0 :: l) :=
  List.Pairwise.cons h0 hl

lemma nondecreasing_glue (l : List ℚ) (hl : l.Pairwise (· ≤ ·))
    (h0 : ∀ x ∈ l, 0 ≤ x) (h1 : ∀ x ∈ l, x ≤ 1) :
    Nondecreasing (0 :: (l ++ [1])) := by
  unfold Nondecreasing
  apply List.Pairwise.cons
  · intro x hx
    rcases List.mem_append.mp hx with hm | hm
    · exact h0 x hm
    · simp only [List.mem_singleton] at hm
      subst hm; norm_num
  · rw [List.pairwise_append]
    refine ⟨hl, List.pairwise_singleton _ _, ?_⟩
    intro x hx y hy
    simp only [List.mem_singleton] at hy
    subst hy; exact h1 x hx

lemma getLast?_append_singleton {α : Type} (l : List α) (a : α) :
    (l ++ [a]).getLast? = some a := by
  rw [List.getLast?_append_cons]
  rfl

lemma StMap.get_set (m : StMap) (t d : TName) (s : TaskState) :
    (m.set t s).get d = if d = t then s else m.get d := by
  cases t <;> cases d <;> simp [StMap.set, StMap.get]

/-- Run-shape lemmas: the complete executor state of `syncAuto`, one lemma per
control-flow shape of the environment.  Each is definitional. -/

lemma run_repoErr (e : String) (tok : Option String) (ires : Except String (List RawIssue))
    (p k : Nat) (werr : Option String) (tres : Except String TrainSummary)
    (perr : Option String) (db : DB) :
    syncAuto ⟨.error e, tok, ires, p, k, werr, tres, perr, db⟩ =
      ⟨[], ⟨.Failed, .Pending, .Pending, .Pending, .Pending⟩,
        [Ev.mk .repo 0 none], db, [],
        [(.repo, ⟨.Pending, .Pending, .Pending, .Pending, .Pending⟩)], some e⟩ := rfl

lemma run_issuesErr (raw : RawRepo) (tok : Option String) (e : String)
    (p k : Nat) (werr : Option String) (tres : Except String TrainSummary)
    (perr : Option String) (db : DB) :
    syncAuto ⟨.ok raw, tok, .error e, p, k, werr, tres, perr, db⟩ =
      ⟨[(.repo, .repoV (fetchedRepo raw tok)), (.webhooks, .unitV)],
        ⟨.Succeeded, .Failed, .Pending, .Succeeded, .Pending⟩,
        Ev.mk .repo 0 none :: Ev.mk .repo 1 none ::
          Ev.mk .webhooks 0 none :: Ev.mk .webhooks 1 werr ::
          Ev.mk .issues 0 none :: (pageEvs p).take k,
        db, [],
        [(.repo, ⟨.Pending, .Pending, .Pending, .Pending, .Pending⟩),
         (.webhooks, ⟨.Succeeded, .Pending, .Pending, .Pending, .Pending⟩),
         (.issues, ⟨.Succeeded, .Pending, .Pending, .Succeeded, .Pending⟩)],
        some e⟩ := rfl

lemma run_persistErr (raw : RawRepo) (tok : Option String) (raws : List RawIssue)
    (p k : Nat) (werr : Option String) (tres : Except String TrainSummary)
    (pe : String) (db : DB) :
    syncAuto ⟨.ok raw, tok, .ok raws, p, k, werr, tres, some pe, db⟩ =
      ⟨[(.repo, .repoV (fetchedRepo raw tok)), (.webhooks, .unitV),
         (.issues, .issuesV (fetchedIssues raws))],
        ⟨.Succeeded, .Succeeded, .Failed, .Succeeded, .Pending⟩,
        Ev.mk .repo 0 none :: Ev.mk .repo 1 none ::
          Ev.mk .webhooks 0 none :: Ev.mk .webhooks 1 werr ::
          Ev.mk .issues 0 none ::
          ((pageEvs p ++ [Ev.mk .issues 1 none]) ++ [Ev.mk .records 0 none]),
        db, [],
        [(.repo, ⟨.Pending, .Pending, .Pending, .Pending, .Pending⟩),
         (.webhooks, ⟨.Succeeded, .Pending, .Pending, .Pending, .Pending⟩),
         (.issues, ⟨.Succeeded, .Pending, .Pending, .Succeeded, .Pending⟩),
         (.records, ⟨.Succeeded, .Succeeded, .Pending, .Succeeded, .Pending⟩)],
        some pe⟩ := rfl

lemma run_skip_nil (raw : RawRepo) (tok : Option String)
    (p k : Nat) (werr : Option String) (tres : Except String TrainSummary) (db : DB) :
    syncAuto ⟨.ok raw, tok, .ok [], p, k, werr, tres, none, db⟩ =
      ⟨[(.repo, .repoV (fetchedRepo raw tok)), (.webhooks, .unitV),
         (.issues, .issuesV []), (.records, .recordsV []), (.train, .unitV)],
        ⟨.Succeeded, .Succeeded, .Succeeded, .Succeeded, .Succeeded⟩,
        Ev.mk .repo 0 none :: Ev.mk .repo 1 none ::
          Ev.mk .webhooks 0 none :: Ev.mk .webhooks 1 werr ::
          Ev.mk .issues 0 none ::
          (((pageEvs p ++ [Ev.mk .issues 1 none]) ++
             [Ev.mk .records 0 none, Ev.mk .records (1/2) none,
              Ev.mk .records (3/5) none, Ev.mk .records 1 none]) ++
            [Ev.mk .train 0 none, Ev.mk .train 1 none]),
        (db.persistStep (fetchedRepo raw tok) []), [],
        [(.repo, ⟨.Pending, .Pending, .Pending, .Pending, .Pending⟩),
         (.webhooks, ⟨.Succeeded, .Pending, .Pending, .Pending, .Pending⟩),
         (.issues, ⟨.Succeeded, .Pending, .Pending, .Succeeded, .Pending⟩),
         (.records, ⟨.Succeeded, .Succeeded, .Pending, .Succeeded, .Pending⟩),
         (.train, ⟨.Succeeded, .Succeeded, .Succeeded, .Succeeded, .Pending⟩)],
        none⟩ := rfl

lemma run_skip_one (raw : RawRepo) (tok : Option String) (i : RawIssue)
    (p k : Nat) (werr : Option String) (tres : Except String TrainSummary) (db : DB) :
    syncAuto ⟨.ok raw, tok, .ok [i], p, k, werr, tres, none, db⟩ =
      ⟨[(.repo, .repoV (fetchedRepo raw tok)), (.webhooks, .unitV),
         (.issues, .issuesV (setRepoIds raw.id (fetchedIssues [i]))),
         (.records, .recordsV (setRepoIds raw.id (fetchedIssues [i]))),
         (.train, .unitV)],
        ⟨.Succeeded, .Succeeded, .Succeeded, .Succeeded, .Succeeded⟩,
        Ev.mk .repo 0 none :: Ev.mk .repo 1 none ::
          Ev.mk .webhooks 0 none :: Ev.mk .webhooks 1 werr ::
          Ev.mk .issues 0 none ::
          (((pageEvs p ++ [Ev.mk .issues 1 none]) ++
             [Ev.mk .records 0 none, Ev.mk .records (1/2) none,
              Ev.mk .records (3/5) none, Ev.mk .records 1 none]) ++
            [Ev.mk .train 0 none, Ev.mk .train 1 none]),
        (db.persistStep (fetchedRepo raw tok) (fetchedIssues [i])), [],
        [(.repo, ⟨.Pending, .Pending, .Pending, .Pending, .Pending⟩),
         (.webhooks, ⟨.Succeeded, .Pending, .Pending, .Pending, .Pending⟩),
         (.issues, ⟨.Succeeded, .Pending, .Pending, .Succeeded, .Pending⟩),
         (.records, ⟨.Succeeded, .Succeeded, .Pending, .Succeeded, .Pending⟩),
         (.train, ⟨.Succeeded, .Succeeded, .Succeeded, .Succeeded, .Pending⟩)],
        none⟩ := rfl

lemma run_trainErr (raw : RawRepo) (tok : Option String) (i j : RawIssue)
    (rest : List RawIssue) (p k : Nat) (werr : Option String) (te : String) (db : DB) :
    syncAuto ⟨.ok raw, tok, .ok (i :: j :: rest), p, k, werr, .error te, none, db⟩ =
      ⟨[(.repo, .repoV (fetchedRepo raw tok)), (.webhooks, .unitV),
         (.issues, .issuesV (setRepoIds raw.id (fetchedIssues (i :: j :: rest)))),
         (.records, .recordsV (setRepoIds raw.id (fetchedIssues (i :: j :: rest))))],
        ⟨.Succeeded, .Succeeded, .Succeeded, .Succeeded, .Failed⟩,
        Ev.mk .repo 0 none :: Ev.mk .repo 1 none ::
          Ev.mk .webhooks 0 none :: Ev.mk .webhooks 1 werr ::
          Ev.mk .issues 0 none ::
          (((pageEvs p ++ [Ev.mk .issues 1 none]) ++
             [Ev.mk .records 0 none, Ev.mk .records (1/2) none,
              Ev.mk .records (3/5) none, Ev.mk .records 1 none]) ++
            [Ev.mk .train 0 none]),
        (db.persistStep (fetchedRepo raw tok) (fetchedIssues (i :: j :: rest))),
        [⟨(fetchedRepo raw tok).owner, (fetchedRepo raw tok).name,
           setRepoIds raw.id (fetchedIssues (i :: j :: rest)), []⟩],
        [(.repo, ⟨.Pending, .Pending, .Pending, .Pending, .Pending⟩),
         (.webhooks, ⟨.Succeeded, .Pending, .Pending, .Pending, .Pending⟩),
         (.issues, ⟨.Succeeded, .Pending, .Pending, .Succeeded, .Pending⟩),
         (.records, ⟨.Succeeded, .Succeeded, .Pending, .Succeeded, .Pending⟩),
         (.train, ⟨.Succeeded, .Succeeded, .Succeeded, .Succeeded, .Pending⟩)],
        some te⟩ := rfl

lemma run_trainOk (raw : RawRepo) (tok : Option String) (i j : RawIssue)
    (rest : List RawIssue) (p k : Nat) (werr : Option String) (resp : TrainSummary) (db : DB) :
    syncAuto ⟨.ok raw, tok, .ok (i :: j :: rest), p, k, werr, .ok resp, none, db⟩ =
      ⟨[(.repo, .repoV (fetchedRepo raw tok)), (.webhooks, .unitV),
         (.issues, .issuesV (setRepoIds raw.id (fetchedIssues (i :: j :: rest)))),
         (.records, .recordsV (setRepoIds raw.id (fetchedIssues (i :: j :: rest)))),
         (.train, .unitV)],
        ⟨.Succeeded, .Succeeded, .Succeeded, .Succeeded, .Succeeded⟩,
        Ev.mk .repo 0 none :: Ev.mk .repo 1 none ::
          Ev.mk .webhooks 0 none :: Ev.mk .webhooks 1 werr ::
          Ev.mk .issues 0 none ::
          (((pageEvs p ++ [Ev.mk .issues 1 none]) ++
             [Ev.mk .records 0 none, Ev.mk .records (1/2) none,
              Ev.mk .records (3/5) none, Ev.mk .records 1 none]) ++
            [Ev.mk .train 0 none, Ev.mk .train 1 none]),
        (db.persistStep (fetchedRepo raw tok) (fetchedIssues (i :: j :: rest))),
        [⟨(fetchedRepo raw tok).owner, (fetchedRepo raw tok).name,
           setRepoIds raw.id (fetchedIssues (i :: j :: rest)), []⟩],
        [(.repo, ⟨.Pending, .Pending, .Pending, .Pending, .Pending⟩),
         (.webhooks, ⟨.Succeeded, .Pending, .Pending, .Pending, .Pending⟩),
         (.issues, ⟨.Succeeded, .Pending, .Pending, .Succeeded, .Pending⟩),
         (.records, ⟨.Succeeded, .Succeeded, .Pending, .Succeeded, .Pending⟩),
         (.train, ⟨.Succeeded, .Succeeded, .Succeeded, .Succeeded, .Pending⟩)],
        none⟩ := rfl


lemma nondecr_issues_full (p : Nat) : Nondecreasing (0 :: (pagePercents p ++ [1])) :=
  nondecreasing_glue _ (pagePercents_pairwise p) (pagePercents_nonneg p) (pagePercents_le_one p)

lemma nondecr_issues_take (p k : Nat) : Nondecreasing (0 :: (pagePercents p).take k) := by
  apply nondecreasing_zero_cons
  · exact List.Pairwise.sublist (List.take_sublist k _) (pagePercents_pairwise p)
  · intro x hx
    exact pagePercents_nonneg p x ((List.take_sublist k _).subset hx)

lemma last_issues_full (p : Nat) : ((0 : ℚ) :: (pagePercents p ++ [1])).getLast? = some 1 := by
  have h : (0 : ℚ) :: (pagePercents p ++ [1]) = ((0 :: pagePercents p) ++ [1]) := by simp
  rw [h, getLast?_append_singleton]

lemma c8_repoErr (e : String) (tok : Option String) (ires : Except String (List RawIssue))
    (p k : Nat) (werr : Option String) (tres : Except String TrainSummary)
    (perr : Option String) (db : DB) (t : TName) :
    Nondecreasing (percentsOf t (syncAuto ⟨.error e, tok, ires, p, k, werr, tres, perr, db⟩)) ∧
      ((syncAuto ⟨.error e, tok, ires, p, k, werr, tres, perr, db⟩).states.get t = .Succeeded →
        (percentsOf t (syncAuto ⟨.error e, tok, ires, p, k, werr, tres, perr, db⟩)).getLast?
          = some 1) := by
  rw [run_repoErr]
  cases t
  all_goals refine ⟨?_, fun hS => ?_⟩
  all_goals try simp [StMap.get] at hS
  all_goals try simp [percentsOf, Nondecreasing]

lemma c8_issuesErr (raw : RawRepo) (tok : Option String) (e : String)
    (p k : Nat) (werr : Option String) (tres : Except String TrainSummary)
    (perr : Option String) (db : DB) (t : TName) :
    Nondecreasing (percentsOf t (syncAuto ⟨.ok raw, tok, .error e, p, k, werr, tres, perr, db⟩)) ∧
      ((syncAuto ⟨.ok raw, tok, .error e, p, k, werr, tres, perr, db⟩).states.get t = .Succeeded →
        (percentsOf t (syncAuto ⟨.ok raw, tok, .error e, p, k, werr, tres, perr, db⟩)).getLast?
          = some 1) := by
  rw [run_issuesErr]
  cases t
  case issues =>
    refine ⟨?_, fun hS => ?_⟩
    · have h := nondecr_issues_take p k
      simpa [percentsOf, pageEvs, ← List.map_take, percents_issueEvs] using h
    · simp [StMap.get] at hS
  all_goals refine ⟨?_, fun hS => ?_⟩
  all_goals try simp [StMap.get] at hS
  all_goals try simp [percentsOf, pageEvs, ← List.map_take, filter_issueEvs_ne, Nondecreasing]
  all_goals try norm_num

lemma c8_skip_nil (raw : RawRepo) (tok : Option String)
    (p k : Nat) (werr : Option String) (tres : Except String TrainSummary) (db : DB) (t : TName) :
    Nondecreasing (percentsOf t (syncAuto ⟨.ok raw, tok, .ok [], p, k, werr, tres, none, db⟩)) ∧
      ((syncAuto ⟨.ok raw, tok, .ok [], p, k, werr, tres, none, db⟩).states.get t = .Succeeded →
        (percentsOf t (syncAuto ⟨.ok raw, tok, .ok [], p, k, werr, tres, none, db⟩)).getLast? = some 1) := by
  rw [run_skip_nil]
  cases t
  case issues =>
    refine ⟨?_, fun hS => ?_⟩
    · have h := nondecr_issues_full p
      simpa [percentsOf, pageEvs, List.filter_append, List.map_append,
        percents_issueEvs] using h
    · have h := last_issues_full p
      simpa [percentsOf, pageEvs, List.filter_append, List.map_append,
        percents_issueEvs] using h
  all_goals refine ⟨?_, fun hS => ?_⟩
  all_goals try simp [StMap.get] at hS
  all_goals try simp [percentsOf, pageEvs, List.filter_append, List.map_append,
    filter_issueEvs_ne, Nondecreasing]
  all_goals try norm_num


lemma c8_skip_one (raw : RawRepo) (tok : Option String) (i : RawIssue)
    (p k : Nat) (werr : Option String) (tres : Except String TrainSummary) (db : DB) (t : TName) :
    Nondecreasing (percentsOf t (syncAuto ⟨.ok raw, tok, .ok [i], p, k, werr, tres, none, db⟩)) ∧
      ((syncAuto ⟨.ok raw, tok, .ok [i], p, k, werr, tres, none, db⟩).states.get t = .Succeeded →
        (percentsOf t (syncAuto ⟨.ok raw, tok, .ok [i], p, k, werr, tres, none, db⟩)).getLast? = some 1) := by
  rw [run_skip_one]
  cases t
  case issues =>
    refine ⟨?_, fun hS => ?_⟩
    · have h := nondecr_issues_full p
      simpa [percentsOf, pageEvs, List.filter_append, List.map_append,
        percents_issueEvs] using h
    · have h := last_issues_full p
      simpa [percentsOf, pageEvs, List.filter_append, List.map_append,
        percents_issueEvs] using h
  all_goals refine ⟨?_, fun hS => ?_⟩
  all_goals try simp [StMap.get] at hS
  all_goals try simp [percentsOf, pageEvs, List.filter_append, List.map_append,
    filter_issueEvs_ne, Nondecreasing]
  all_goals try norm_num


lemma c8_persistErr (raw : RawRepo) (tok : Option String) (raws : List RawIssue)
    (p k : Nat) (werr : Option String) (tres : Except String TrainSummary) (pe : String) (db : DB) (t : TName) :
    Nondecreasing (percentsOf t (syncAuto ⟨.ok raw, tok, .ok raws, p, k, werr, tres, some pe, db⟩)) ∧
      ((syncAuto ⟨.ok raw, tok, .ok raws, p, k, werr, tres, some pe, db⟩).states.get t = .Succeeded →
        (percentsOf t (syncAuto ⟨.ok raw, tok, .ok raws, p, k, werr, tres, some pe, db⟩)).getLast? = some 1) := by
  rw [run_persistErr]
  cases t
  case issues =>
    refine ⟨?_, fun hS => ?_⟩
    · have h := nondecr_issues_full p
      simpa [percentsOf, pageEvs, List.filter_append, List.map_append,
        percents_issueEvs] using h
    · have h := last_issues_full p
      simpa [percentsOf, pageEvs, List.filter_append, List.map_append,
        percents_issueEvs] using h
  all_goals refine ⟨?_, fun hS => ?_⟩
  all_goals try simp [StMap.get] at hS
  all_goals try simp [percentsOf, pageEvs, List.filter_append, List.map_append,
    filter_issueEvs_ne, Nondecreasing]
  all_goals try norm_num


lemma c8_trainErr (raw : RawRepo) (tok : Option String) (i j : RawIssue)
    (rest : List RawIssue) (p k : Nat) (werr : Option String) (te : String) (db : DB) (t : TName) :
    Nondecreasing (percentsOf t (syncAuto ⟨.ok raw, tok, .ok (i :: j :: rest), p, k, werr, .error te, none, db⟩)) ∧
      ((syncAuto ⟨.ok raw, tok, .ok (i :: j :: rest), p, k, werr, .error te, none, db⟩).states.get t = .Succeeded →
        (percentsOf t (syncAuto ⟨.ok raw, tok, .ok (i :: j :: rest), p, k, werr, .error te, none, db⟩)).getLast? = some 1) := by
  rw [run_trainErr]
  cases t
  case issues =>
    refine ⟨?_, fun hS => ?_⟩
    · have h := nondecr_issues_full p
      simpa [percentsOf, pageEvs, List.filter_append, List.map_append,
        percents_issueEvs] using h
    · have h := last_issues_full p
      simpa [percentsOf, pageEvs, List.filter_append, List.map_append,
        percents_issueEvs] using h
  all_goals refine ⟨?_, fun hS => ?_⟩
  all_goals try simp [StMap.get] at hS
  all_goals try simp [percentsOf, pageEvs, List.filter_append, List.map_append,
    filter_issueEvs_ne, Nondecreasing]
  all_goals try norm_num


lemma c8_trainOk (raw : RawRepo) (tok : Option String) (i j : RawIssue)
    (rest : List RawIssue) (p k : Nat) (werr : Option String) (resp : TrainSummary) (db : DB) (t : TName) :
    Nondecreasing (percentsOf t (syncAuto ⟨.ok raw, tok, .ok (i :: j :: rest), p, k, werr, .ok resp, none, db⟩)) ∧
      ((syncAuto ⟨.ok raw, tok, .ok (i :: j :: rest), p, k, werr, .ok resp, none, db⟩).states.get t = .Succeeded →
        (percentsOf t (syncAuto ⟨.ok raw, tok, .ok (i :: j :: rest), p, k, werr, .ok resp, none, db⟩)).getLast? = some 1) := by
  rw [run_trainOk]
  cases t
  case issues =>
    refine ⟨?_, fun hS => ?_⟩
    · have h := nondecr_issues_full p
      simpa [percentsOf, pageEvs, List.filter_append, List.map_append,
        percents_issueEvs] using h
    · have h := last_issues_full p
      simpa [percentsOf, pageEvs, List.filter_append, List.map_append,
        percents_issueEvs] using h
  all_goals refine ⟨?_, fun hS => ?_⟩
  all_goals try simp [StMap.get] at hS
  all_goals try simp [percentsOf, pageEvs, List.filter_append, List.map_append,
    filter_issueEvs_ne, Nondecreasing]
  all_goals try norm_num

/-- C8: for every single task within one run, the sequence of percent values
carried by the progress events that task emits is non-decreasing, and if the
task succeeds then the last percent it emits in that run is exactly 1.0. -/
theorem C8_progress_monotone (env : Env) (t : TName) :
    Nondecreasing (percentsOf t (syncAuto env)) ∧
      ((syncAuto env).states.get t = .Succeeded →
        (percentsOf t (syncAuto env)).getLast? = some 1) := by
  obtain ⟨rr, tok, ires, p, k, werr, tres, perr, db⟩ := env
  cases rr with
  | error e => exact c8_repoErr e tok ires p k werr tres perr db t
  | ok raw =>
    cases ires with
    | error e => exact c8_issuesErr raw tok e p k werr tres perr db t
    | ok raws =>
      cases perr with
      | some pe => exact c8_persistErr raw tok raws p k werr tres pe db t
      | none =>
        match raws with
        | [] => exact c8_skip_nil raw tok p k werr tres db t
        | [i] => exact c8_skip_one raw tok i p k werr tres db t
        | i :: j :: rest =>
          cases tres with
          | error te => exact c8_trainErr raw tok i j rest p k werr te db t
          | ok resp => exact c8_trainOk raw tok i j rest p k werr resp db t

/-- Witness for C8 at the concrete all-success scenario and the FetchRepo
task. -/
theorem C8_progress_monotone_witness :
    Nondecreasing (percentsOf TName.repo (syncAuto envBase)) ∧
      (percentsOf TName.repo (syncAuto envBase)).getLast? = some 1 :=
  ⟨(C8_progress_monotone envBase TName.repo).1,
    (C8_progress_monotone envBase TName.repo).2 rfl⟩

/-!
Lemmas for the idempotence of the PersistRecords persistence step.
-/

lemma repoKey_self (r : RepoRec) : repoKey r r = true := by
  simp [repoKey]

lemma map_id_of {α : Type} (f : α → α) (l : List α) (h : ∀ x ∈ l, f x = x) :
    l.map f = l := by
  induction l with
  | nil => rfl
  | cons x xs ih =>
    rw [List.map_cons, h x (List.mem_cons_self x xs),
      ih fun y hy => h y (List.mem_cons_of_mem x hy)]

lemma upsertRows_mem (r : RepoRec) (l : List RepoRec) :
    ∀ x ∈ upsertRows r l, x = r ∨ repoKey r x = false := by
  intro x hx
  unfold upsertRows at hx
  by_cases hany : l.any (repoKey r)
  · rw [if_pos hany] at hx
    obtain ⟨y, hy, rfl⟩ := List.mem_map.mp hx
    by_cases hk : repoKey r y
    · left; rw [if_pos hk]
    · right; rw [if_neg hk]; simpa using hk
  · rw [if_neg hany] at hx
    rcases List.mem_append.mp hx with hm | hm
    · right
      by_cases hk : repoKey r x
      · exact absurd (List.any_eq_true.mpr ⟨x, hm, hk⟩) hany
      · simpa using hk
    · left
      simpa using hm

lemma upsertRows_self_mem (r : RepoRec) (l : List RepoRec) : r ∈ upsertRows r l := by
  unfold upsertRows
  by_cases hany : l.any (repoKey r)
  · rw [if_pos hany]
    obtain ⟨y, hy, hk⟩ := List.any_eq_true.mp hany
    exact List.mem_map.mpr ⟨y, hy, by rw [if_pos hk]⟩
  · rw [if_neg hany]
    simp

lemma upsertRows_idem (r : RepoRec) (l : List RepoRec) :
    upsertRows r (upsertRows r l) = upsertRows r l := by
  set u := upsertRows r l with hu
  have hany : u.any (repoKey r) = true :=
    List.any_eq_true.mpr ⟨r, hu ▸ upsertRows_self_mem r l, repoKey_self r⟩
  unfold upsertRows
  rw [if_pos hany]
  refine map_id_of _ _ fun x hx => ?_
  rcases upsertRows_mem r l x (hu ▸ hx) with rfl | hk
  · split <;> rfl
  · rw [if_neg (by simp [hk])]

lemma filter_key_map_length (r : RepoRec) (l : List RepoRec) :
    ((l.map fun x => if repoKey r x then r else x).filter (repoKey r)).length
      = (l.filter (repoKey r)).length := by
  induction l with
  | nil => rfl
  | cons x xs ih =>
    by_cases hk : repoKey r x <;> simp [hk, repoKey_self, ih]

lemma upsertRows_count (r : RepoRec) (l : List RepoRec)
    (h : (l.filter (repoKey r)).length ≤ 1) :
    ((upsertRows r l).filter (repoKey r)).length = 1 := by
  unfold upsertRows
  by_cases hany : l.any (repoKey r)
  · rw [if_pos hany, filter_key_map_length]
    obtain ⟨y, hy, hk⟩ := List.any_eq_true.mp hany
    have hpos : 0 < (l.filter (repoKey r)).length :=
      List.length_pos.mpr (List.ne_nil_of_mem (List.mem_filter.mpr ⟨hy, hk⟩))
    omega
  · rw [if_neg hany, List.filter_append]
    have h0 : l.filter (repoKey r) = [] := by
      refine List.filter_eq_nil.mpr fun a ha hk => ?_
      exact hany (List.any_eq_true.mpr ⟨a, ha, hk⟩)
    simp [h0, repoKey_self]

lemma filter_setRepoIds (rid : Nat) (is : List IssueRec) :
    (setRepoIds rid is).filter (fun i => i.repository_id != some rid) = [] := by
  induction is with
  | nil => rfl
  | cons x xs ih => simpa [setRepoIds] using ih

lemma filter_notRepo_idem (rid : Nat) (l : List IssueRec) :
    ((l.filter fun i => i.repository_id != some rid).filter
        fun i => i.repository_id != some rid)
      = l.filter fun i => i.repository_id != some rid := by
  rw [List.filter_filter]
  exact List.filter_congr fun x _ => Bool.and_self _

lemma persistStep_components (db : DB) (r : RepoRec) (is : List IssueRec) :
    db.persistStep r is =
      DB.mk (upsertRows r db.repos)
        ((db.issues.filter fun i => i.repository_id != some r.id) ++ setRepoIds r.id is) := rfl

/-- C7: running the PersistRecords stage twice in succession for the same
repository with the same issue set leaves exactly one Repository record (the
upsert is keyed by the unique `(owner, name)` pair) and exactly the same set
of Issue records as after the first run: the second run's persistence state
equals the first run's, and the repository row count for the key is 1. -/
theorem C7_persist_idempotent (r : RepoRec) (is : List IssueRec) (db : DB)
    (h : db.repoCount r ≤ 1) :
    (db.persistStep r is).persistStep r is = db.persistStep r is ∧
      (db.persistStep r is).repoCount r = 1 := by
  constructor
  · rw [persistStep_components db r is, persistStep_components, upsertRows_idem,
      List.filter_append, filter_notRepo_idem, filter_setRepoIds, List.append_nil]
  · show ((upsertRows r db.repos).filter (repoKey r)).length = 1
    exact upsertRows_count r db.repos h

def repo7 : RepoRec := ⟨77, "acme", "widgets", "Widget tracker", none⟩

def issues7 : List IssueRec := [⟨10, none⟩, ⟨11, none⟩]

/-- Witness for C7 at a concrete repository, issue set and empty database. -/
theorem C7_persist_idempotent_witness :
    (db0.persistStep repo7 issues7).persistStep repo7 issues7
        = db0.persistStep repo7 issues7 ∧
      (db0.persistStep repo7 issues7).repoCount repo7 = 1 :=
  C7_persist_idempotent repo7 issues7 db0 (by decide)

/-!
The dependency-ordering invariant of the executor.
-/

lemma findReady_spec (m : StMap) (t : TName) (h : findReady m = some t) :
    m.get t = .Pending ∧ ∀ d ∈ deps t, m.get d = .Succeeded := by
  have h1 := List.find?_some h
  rw [Bool.and_eq_true] at h1
  obtain ⟨ha, hb⟩ := h1
  refine ⟨eq_of_beq ha, fun d hd => ?_⟩
  unfold depsOK at hb
  exact eq_of_beq (List.all_eq_true.mp hb d hd)

lemma set_preserves_succ (m : StMap) (t : TName) (x : TaskState) (hp : m.get t = .Pending)
    (d : TName) (hd : m.get d = .Succeeded) : (m.set t x).get d = .Succeeded := by
  rw [StMap.get_set]
  split
  · next heq =>
    subst heq
    rw [hp] at hd
    exact absurd hd (by decide)
  · exact hd

/-- Soundness of the invocation log: every logged body invocation happened
with all of its dependencies already succeeded, and every task recorded as
succeeded in a logged snapshot is still succeeded now (success is stable). -/
def InvocSound (s : ExecSt) : Prop :=
  ∀ p ∈ s.invocations,
    (∀ d ∈ deps p.1, p.2.get d = .Succeeded) ∧
      ∀ d : TName, p.2.get d = .Succeeded → s.states.get d = .Succeeded

lemma execTask_invocations (env : Env) (t : TName) (s : ExecSt) :
    (execTask env t s).invocations = s.invocations ++ [(t, s.states)] := by
  unfold execTask
  dsimp only
  split <;> rfl

lemma execTask_states_cases (env : Env) (t : TName) (s : ExecSt) :
    (execTask env t s).states = s.states.set t .Succeeded ∨
      (execTask env t s).states = s.states.set t .Failed := by
  unfold execTask
  dsimp only
  split
  · exact Or.inl rfl
  · exact Or.inr rfl

lemma invocSound_step (env : Env) (t : TName) (s : ExecSt)
    (hf : findReady s.states = some t) (hs : InvocSound s) :
    InvocSound (execTask env t s) := by
  obtain ⟨hpend, hdeps⟩ := findReady_spec _ _ hf
  have hmain : ∀ (x : TaskState) (p : TName × StMap),
      p ∈ s.invocations ++ [(t, s.states)] →
      (∀ d ∈ deps p.1, p.2.get d = .Succeeded) ∧
        ∀ d : TName, p.2.get d = .Succeeded → (s.states.set t x).get d = .Succeeded := by
    intro x p hp
    rcases List.mem_append.mp hp with hm | hm
    · exact ⟨(hs p hm).1, fun d hd =>
        set_preserves_succ s.states t x hpend d ((hs p hm).2 d hd)⟩
    · have hpt : p = (t, s.states) := by simpa using hm
      subst hpt
      exact ⟨hdeps, fun d hd => set_preserves_succ s.states t x hpend d hd⟩
  intro p hp
  rw [execTask_invocations] at hp
  rcases execTask_states_cases env t s with hst | hst <;> rw [hst]
  · exact hmain .Succeeded p hp
  · exact hmain .Failed p hp

lemma invocSound_runLoop (env : Env) (n : Nat) (s : ExecSt) (hs : InvocSound s) :
    InvocSound (runLoop env n s) := by
  induction n generalizing s with
  | zero => exact hs
  | succ n ih =>
    rw [runLoop]
    by_cases herr : s.firstErr.isSome
    · rw [if_pos herr]; exact hs
    · rw [if_neg herr]
      rcases hf : findReady s.states with _ | t
      · exact hs
      · exact ih _ (invocSound_step env t s hf hs)

/-- C1: in every run of the sync pipeline, a task's body is invoked only
after every one of its declared dependencies has reached state Succeeded —
PersistRecords depends on FetchRepo and FetchIssues, RegisterWebhook on
FetchRepo, TrainModel on FetchRepo and PersistRecords — and if any
dependency failed, the dependent task's body is never invoked. -/
theorem C1_dependency_order (env : Env) :
    deps .records = [.repo, .issues] ∧ deps .webhooks = [.repo] ∧
      deps .train = [.repo, .records] ∧
      (∀ p ∈ (syncAuto env).invocations, ∀ d ∈ deps p.1, p.2.get d = .Succeeded) ∧
      ∀ t : TName, (∃ d ∈ deps t, (syncAuto env).states.get d = .Failed) →
        ∀ p ∈ (syncAuto env).invocations, p.1 ≠ t := by
  have hs : InvocSound (syncAuto env) :=
    invocSound_runLoop env 5 (initSt env.db) fun p hp => absurd hp (List.not_mem_nil p)
  refine ⟨rfl, rfl, rfl, fun p hp d hd => (hs p hp).1 d hd, ?_⟩
  rintro t ⟨d, hd, hfail⟩ p hp heq
  have h1 := (hs p hp).1 d (heq ▸ hd)
  have h2 := (hs p hp).2 d h1
  rw [h2] at hfail
  exact absurd hfail (by decide)

/-- Witness for C1: in the run whose repository fetch fails, the invocation
log's only entry is not the PersistRecords task (its body never ran). -/
theorem C1_dependency_order_witness :
    ((syncAuto envRepoFail).invocations.getD 0
        (TName.train, ⟨.Pending, .Pending, .Pending, .Pending, .Pending⟩)).1
      ≠ TName.records :=
  (C1_dependency_order envRepoFail).2.2.2.2 .records ⟨.repo, by decide, rfl⟩ _ (by decide)

/-- C2: a failure of the RegisterWebhook stage never changes the run's final
outcome: injecting a registrar error leaves the run's first error unchanged,
the webhook task still completes as Succeeded whenever it runs, the error is
converted into the progress message of its percent-1 event, and a run in
which every other stage succeeds still reports overall success. -/
theorem C2_webhook_isolation (env : Env) (e : String) :
    ((syncAuto { env with webhookErr := some e }).firstErr
        = (syncAuto { env with webhookErr := none }).firstErr) ∧
      (∀ raw : RawRepo, env.repoResult = .ok raw →
        (syncAuto { env with webhookErr := some e }).states.get .webhooks = .Succeeded ∧
          ((syncAuto { env with webhookErr := some e }).events.filter
              fun ev => ev.task == .webhooks)
            = [Ev.mk .webhooks 0 none, Ev.mk .webhooks 1 (some e)]) ∧
      ∀ (raw : RawRepo) (raws : List RawIssue),
        env.repoResult = .ok raw → env.issuesResult = .ok raws → env.persistErr = none →
        (raws.length ≤ 1 ∨ ∃ s, env.trainResult = .ok s) →
        (syncAuto { env with webhookErr := some e }).firstErr = none := by
  obtain ⟨rr, tok, ires, p, k, werr, tres, perr, db⟩ := env
  refine ⟨?_, ?_, ?_⟩
  · cases rr with
    | error e1 => rw [run_repoErr, run_repoErr]
    | ok raw =>
      cases ires with
      | error e1 => rw [run_issuesErr, run_issuesErr]
      | ok raws =>
        cases perr with
        | some pe => rw [run_persistErr, run_persistErr]
        | none =>
          rcases raws with _ | ⟨i, _ | ⟨j, rest⟩⟩
          · rw [run_skip_nil, run_skip_nil]
          · rw [run_skip_one, run_skip_one]
          · cases tres with
            | error te => rw [run_trainErr, run_trainErr]
            | ok resp => rw [run_trainOk, run_trainOk]
  · intro raw hrepo
    have hrr : rr = .ok raw := hrepo
    subst hrr
    cases ires with
    | error e1 =>
      rw [run_issuesErr]
      refine ⟨rfl, ?_⟩
      simp [pageEvs, ← List.map_take, filter_issueEvs_ne]
    | ok raws =>
      cases perr with
      | some pe =>
        rw [run_persistErr]
        refine ⟨rfl, ?_⟩
        simp [pageEvs, List.filter_append, filter_issueEvs_ne]
      | none =>
        rcases raws with _ | ⟨i, _ | ⟨j, rest⟩⟩
        · rw [run_skip_nil]
          refine ⟨rfl, ?_⟩
          simp [pageEvs, List.filter_append, filter_issueEvs_ne]
        · rw [run_skip_one]
          refine ⟨rfl, ?_⟩
          simp [pageEvs, List.filter_append, filter_issueEvs_ne]
        · cases tres with
          | error te =>
            rw [run_trainErr]
            refine ⟨rfl, ?_⟩
            simp [pageEvs, List.filter_append, filter_issueEvs_ne]
          | ok resp =>
            rw [run_trainOk]
            refine ⟨rfl, ?_⟩
            simp [pageEvs, List.filter_append, filter_issueEvs_ne]
  · intro raw raws hrepo hiss hperr hok
    have hrr : rr = .ok raw := hrepo
    subst hrr
    have hii : ires = .ok raws := hiss
    subst hii
    have hpp : perr = none := hperr
    subst hpp
    rcases raws with _ | ⟨i, _ | ⟨j, rest⟩⟩
    · rw [run_skip_nil]
    · rw [run_skip_one]
    · rcases hok with hlen | ⟨s, hws⟩
      · simp [List.length_cons] at hlen
      · have hts : tres = .ok s := hws
        subst hts
        rw [run_trainOk]

/-- Witness for C2: in the concrete scenario with a failing registrar the run
still reports success. -/
theorem C2_webhook_isolation_witness :
    (syncAuto { envBase with webhookErr := some "denied" }).firstErr = none :=
  (C2_webhook_isolation envBase "denied").2.2 rawRepo0 [⟨10⟩, ⟨11⟩, ⟨12⟩] rfl rfl rfl
    (Or.inr ⟨sum0, rfl⟩)

/-- C10: in every run in which the RegisterWebhook stage runs, it emits
exactly two progress events — percent 0 before the registrar call and
percent 1 after it — the percent-1 event carries the registrar's error
message when registration failed and no message on success, and the stage
completes as Succeeded either way; hence a final percent of 1.0 on the
Webhook stage does not imply the webhook was actually created. -/
theorem C10_webhook_events (env : Env) :
    (∀ (s : Store) (d : DB), webhooksBody env s d =
        ⟨[Ev.mk .webhooks 0 none, Ev.mk .webhooks 1 env.webhookErr], .ok .unitV, d, [], []⟩) ∧
      ∀ raw : RawRepo, env.repoResult = .ok raw →
        ((syncAuto env).events.filter fun ev => ev.task == .webhooks)
            = [Ev.mk .webhooks 0 none, Ev.mk .webhooks 1 env.webhookErr] ∧
          (syncAuto env).states.get .webhooks = .Succeeded := by
  obtain ⟨rr, tok, ires, p, k, werr, tres, perr, db⟩ := env
  refine ⟨fun s d => rfl, ?_⟩
  intro raw hrepo
  have hrr : rr = .ok raw := hrepo
  subst hrr
  cases ires with
  | error e1 =>
    rw [run_issuesErr]
    refine ⟨?_, rfl⟩
    simp [pageEvs, ← List.map_take, filter_issueEvs_ne]
  | ok raws =>
    cases perr with
    | some pe =>
      rw [run_persistErr]
      refine ⟨?_, rfl⟩
      simp [pageEvs, List.filter_append, filter_issueEvs_ne]
    | none =>
      rcases raws with _ | ⟨i, _ | ⟨j, rest⟩⟩
      · rw [run_skip_nil]
        refine ⟨?_, rfl⟩
        simp [pageEvs, List.filter_append, filter_issueEvs_ne]
      · rw [run_skip_one]
        refine ⟨?_, rfl⟩
        simp [pageEvs, List.filter_append, filter_issueEvs_ne]
      · cases tres with
        | error te =>
          rw [run_trainErr]
          refine ⟨?_, rfl⟩
          simp [pageEvs, List.filter_append, filter_issueEvs_ne]
        | ok resp =>
          rw [run_trainOk]
          refine ⟨?_, rfl⟩
          simp [pageEvs, List.filter_append, filter_issueEvs_ne]

/-- C3: in a run whose fetches and persistence succeed, with 0 or 1 fetched
issues the TrainModel stage emits progress percent 1, succeeds, and never
calls the Classifier Trainer; with 2 or more fetched issues the trainer is
invoked exactly once, with the fetched repository's owner and name, exactly
those fetched issue records (the same records, whose repository id
PersistRecords set in place) and an empty ignore-label list. -/
theorem C3_train_threshold (env : Env) (raw : RawRepo) (raws : List RawIssue)
    (h1 : env.repoResult = .ok raw) (h2 : env.issuesResult = .ok raws)
    (h3 : env.persistErr = none) :
    (raws.length ≤ 1 →
      (syncAuto env).trainCalls = [] ∧
        percentsOf .train (syncAuto env) = [0, 1] ∧
        (syncAuto env).states.get .train = .Succeeded) ∧
      (2 ≤ raws.length →
        (syncAuto env).trainCalls
          = [⟨(fetchedRepo raw env.token).owner, (fetchedRepo raw env.token).name,
              setRepoIds raw.id (fetchedIssues raws), []⟩]) := by
  obtain ⟨rr, tok, ires, p, k, werr, tres, perr, db⟩ := env
  have hrr : rr = .ok raw := h1
  subst hrr
  have hii : ires = .ok raws := h2
  subst hii
  have hpp : perr = none := h3
  subst hpp
  rcases raws with _ | ⟨i, _ | ⟨j, rest⟩⟩
  · refine ⟨fun _ => ?_, fun hge => ?_⟩
    · rw [run_skip_nil]
      refine ⟨rfl, ?_, rfl⟩
      simp [percentsOf, pageEvs, List.filter_append, List.map_append, filter_issueEvs_ne]
    · simp at hge
  · refine ⟨fun _ => ?_, fun hge => ?_⟩
    · rw [run_skip_one]
      refine ⟨rfl, ?_, rfl⟩
      simp [percentsOf, pageEvs, List.filter_append, List.map_append, filter_issueEvs_ne]
    · simp at hge
  · refine ⟨fun hle => ?_, fun _ => ?_⟩
    · simp [List.length_cons] at hle
    · cases tres with
      | error te => rw [run_trainErr]
      | ok resp => rw [run_trainOk]

/-- C4 amended: whenever the TrainModel stage completes — after invoking the
trainer or after the issue-threshold skip — the value under the train key of
the result store (and hence of the final results delivered to the caller) is
the callback's undefined value, not a training summary: the body discards
the trainer's response. -/
theorem C4_train_result_amended (env : Env) (raw : RawRepo) (raws : List RawIssue)
    (h1 : env.repoResult = .ok raw) (h2 : env.issuesResult = .ok raws)
    (h3 : env.persistErr = none)
    (h4 : raws.length ≤ 1 ∨ ∃ s, env.trainResult = .ok s) :
    Store.find (syncAuto env).store .train = some TVal.unitV := by
  obtain ⟨rr, tok, ires, p, k, werr, tres, perr, db⟩ := env
  have hrr : rr = .ok raw := h1
  subst hrr
  have hii : ires = .ok raws := h2
  subst hii
  have hpp : perr = none := h3
  subst hpp
  rcases raws with _ | ⟨i, _ | ⟨j, rest⟩⟩
  · rw [run_skip_nil]; rfl
  · rw [run_skip_one]; rfl
  · rcases h4 with hlen | ⟨s, hws⟩
    · simp [List.length_cons] at hlen
    · have hts : tres = .ok s := hws
      subst hts
      rw [run_trainOk]; rfl

/-- Counterexample to C4 as stated: in the concrete all-success run with 3
issues and a trainer returning `sum0`, the stored train value is the
undefined unit value and differs from the trainer's summary. -/
theorem C4_train_result_counterexample :
    Store.find (syncAuto envBase).store .train = some TVal.unitV ∧
      Store.find (syncAuto envBase).store .train ≠ some (TVal.summaryV sum0) := by
  refine ⟨rfl, fun h => ?_⟩
  exact TVal.noConfusion (Option.some.inj h)

/-- Witness for C10 at the concrete scenario with a failing registrar. -/
theorem C10_webhook_events_witness :
    ((syncAuto { envBase with webhookErr := some "denied" }).events.filter
        fun ev => ev.task == .webhooks)
        = [Ev.mk .webhooks 0 none, Ev.mk .webhooks 1 (some "denied")] ∧
      (syncAuto { envBase with webhookErr := some "denied" }).states.get .webhooks
        = .Succeeded :=
  (C10_webhook_events { envBase with webhookErr := some "denied" }).2 rawRepo0 rfl

/-- Witness for C3 at the concrete scenario with 3 fetched issues. -/
theorem C3_train_threshold_witness :
    (syncAuto envBase).trainCalls
      = [⟨(fetchedRepo rawRepo0 (some "tok")).owner, (fetchedRepo rawRepo0 (some "tok")).name,
          setRepoIds rawRepo0.id (fetchedIssues [⟨10⟩, ⟨11⟩, ⟨12⟩]), []⟩] :=
  (C3_train_threshold envBase rawRepo0 [⟨10⟩, ⟨11⟩, ⟨12⟩] rfl rfl rfl).2 (by decide)

/-- Witness for the amended C4 at the concrete all-success scenario. -/
theorem C4_train_result_amended_witness :
    Store.find (syncAuto envBase).store .train = some TVal.unitV :=
  C4_train_result_amended envBase rawRepo0 [⟨10⟩, ⟨11⟩, ⟨12⟩] rfl rfl rfl
    (Or.inr ⟨sum0, rfl⟩)

/-- C5: the URL https://github.com/acme/widgets parses to owner "acme" and
name "widgets"; and in the full concrete run whose fetcher returns 3 issues,
every task's percent sequence starts at 0 and ends at 1, the final result
holds exactly 3 persisted issue records whose repository id equals the
persisted repository row's identity (77), and the run succeeds. -/
theorem C5_concrete_scenario :
    parseGitHubUrl "https://github.com/acme/widgets"
        = some ⟨some "acme", some "widgets", "acme/widgets"⟩ ∧
      (percentsOf .repo (syncAuto envBase)).head? = some 0 ∧
      (percentsOf .repo (syncAuto envBase)).getLast? = some 1 ∧
      (percentsOf .issues (syncAuto envBase)).head? = some 0 ∧
      (percentsOf .issues (syncAuto envBase)).getLast? = some 1 ∧
      (percentsOf .records (syncAuto envBase)).head? = some 0 ∧
      (percentsOf .records (syncAuto envBase)).getLast? = some 1 ∧
      (percentsOf .webhooks (syncAuto envBase)).head? = some 0 ∧
      (percentsOf .webhooks (syncAuto envBase)).getLast? = some 1 ∧
      (percentsOf .train (syncAuto envBase)).head? = some 0 ∧
      (percentsOf .train (syncAuto envBase)).getLast? = some 1 ∧
      Store.find (syncAuto envBase).store .records
        = some (.recordsV [⟨10, some 77⟩, ⟨11, some 77⟩, ⟨12, some 77⟩]) ∧
      (syncAuto envBase).db.repos
        = [⟨77, "acme", "widgets", "Widget tracker", some "tok"⟩] ∧
      (syncAuto envBase).firstErr = none :=
  ⟨rfl, rfl, rfl, rfl, rfl, rfl, rfl, rfl, rfl, rfl, rfl, rfl, rfl, rfl⟩

def db6 : DB := ⟨[⟨5, "o", "n", "d", none⟩], [⟨1, some 5⟩, ⟨2, some 5⟩]⟩

/-- Counterexample to C6 as stated: for a stored repository with id 5 and a
failing classifier trainer, the TrainRepository entry point still resolves
successfully — the trainer's error is swallowed (only logged), not
propagated, and no training summary is returned (the resolved value is
undefined). -/
theorem C6_train_repository_counterexample :
    (Repository.findById db6 5).isSome = true ∧
      (Repository.classTrain db6 (.error "boom") 5).2 = .ok () ∧
      ∀ msg : String, (Repository.classTrain db6 (.error "boom") 5).2 ≠ .error msg := by
  refine ⟨rfl, rfl, fun msg h => ?_⟩
  exact Except.noConfusion h

/-- C6 amended: for every repository id identifying a stored repository, the
TrainRepository entry point loads that repository's stored issues and invokes
the Classifier Trainer on them exactly once with the repository's owner and
name and an empty ignore-label list, but resolves with no value regardless of
the trainer's outcome — trainer errors are logged and swallowed; only a
repository id matching no stored repository produces a propagated error. -/
theorem C6_train_repository_amended (db : DB) (tr : Except String TrainSummary) (repoId : Nat) :
    (∀ repo : RepoRec, Repository.findById db repoId = some repo →
      Repository.classTrain db tr repoId
        = ([⟨repo.owner, repo.name,
              db.issues.filter fun i => i.repository_id == some repo.id, []⟩], .ok ())) ∧
      (Repository.findById db repoId = none →
        ∃ msg, (Repository.classTrain db tr repoId).2 = .error msg) := by
  constructor
  · intro repo h
    unfold Repository.classTrain
    rw [h]
    rfl
  · intro h
    unfold Repository.classTrain
    rw [h]
    exact ⟨_, rfl⟩

/-- Witness for the amended C6 at a concrete database with one stored
repository and two stored issues. -/
theorem C6_train_repository_amended_witness :
    Repository.classTrain db6 (.error "boom") 5
      = ([⟨"o", "n", [⟨1, some 5⟩, ⟨2, some 5⟩], []⟩], .ok ()) :=
  (C6_train_repository_amended db6 (.error "boom") 5).1 ⟨5, "o", "n", "d", none⟩ rfl

/-- Counterexample to C9 as stated: the empty URL is malformed, yet a request
with no authenticated session returns the missing-credential error, not
InvalidRepositoryURL — the credential check precedes URL validation. -/
theorem C9_validation_counterexample :
    malformedURL "" = true ∧
      (repositorySync false "" envBase).error = some .missingCredential ∧
      (repositorySync false "" envBase).error ≠ some .invalidRepositoryURL := by
  refine ⟨rfl, rfl, fun h => ?_⟩
  exact SyncError.noConfusion (Option.some.inj h)

/-- C9 amended: SyncRepository validates before starting the pipeline — a
request with no authenticated session returns MissingCredential, and an
authenticated request with a malformed URL returns InvalidRepositoryURL; in
both cases no progress event is emitted and no task body is invoked (the
credential check runs first, so an unauthenticated request gets
MissingCredential even when its URL is also malformed). -/
theorem C9_validation_amended (url : String) (env : Env) :
    (repositorySync false url env = ⟨some .missingCredential, none, [], []⟩) ∧
      (malformedURL url = true →
        repositorySync true url env = ⟨some .invalidRepositoryURL, none, [], []⟩) := by
  constructor
  · rfl
  · intro h
    unfold repositorySync
    unfold malformedURL at h
    rcases hp : parseGitHubUrl url with _ | r
    · rfl
    · rw [hp] at h
      have hn : r.name.isSome = false := by
        rcases r with ⟨ro, rn, rr⟩
        cases rn with
        | none => rfl
        | some x => simp at h
      simp [hn]

/-- Witness for the amended C9: the authenticated request with the empty URL
is rejected as an invalid repository URL with no events and no invocations. -/
theorem C9_validation_amended_witness :
    repositorySync true "" envBase = ⟨some .invalidRepositoryURL, none, [], []⟩ :=
  (C9_validation_amended "" envBase).2 rfl
